import Mathlib

/-!
Verification of the slider value-mapping and range-slider interaction logic
of the react-native-sliders repository.

Numbers are modelled as rationals (exact arithmetic).  `Math.round` of the
host language rounds half toward positive infinity, which is exactly
Mathlib's `round` on `ℚ`.

The host animation library's `interpolate` (an external dependency) is
modelled for a two-point input range, following its documented behavior
(and the spec's edge-case sentence): a zero-width input range returns the
left output edge; otherwise the affine map is applied, with either
"extend" (no output clamping) or "clamp" extrapolation.
-/

namespace RNSlider

/-- Two-point linear interpolation with "extend" extrapolation, as supplied
by the host animation library: a zero-width input range returns the left
output edge, otherwise the affine map with no output clamping. -/
def interpolateExtend (x l r ol oR : ℚ) : ℚ :=
  if r - l = 0 then ol else ol + (x - l) / (r - l) * (oR - ol)

/-- Two-point linear interpolation with "clamp" extrapolation: as
`interpolateExtend` but the result is clamped to the output interval
(oriented by which output edge is larger). -/
def interpolateClamped (x l r ol oR : ℚ) : ℚ :=
  if r - l = 0 then ol
  else
    let val := ol + (x - l) / (r - l) * (oR - ol)
    if ol ≤ oR then max ol (min oR val) else max oR (min ol val)

/-- From src/unnamed/part_003 `clampPosition`: Math.max(min, Math.min(max, position)). -/
def clampPosition (position mn mx : ℚ) : ℚ :=
  max mn (min mx position)

/-- From src/unnamed/part_003 `calculateSteppedValue`: quantize to the step
grid when step > 0 (Math.round rounds half up, as Mathlib `round` does on ℚ),
then clamp into [mn, mx]. -/
def calculateSteppedValue (value step mn mx : ℚ) : ℚ :=
  let steppedValue := if step > 0 then ((round (value / step) : ℤ) : ℚ) * step else value
  max mn (min mx steppedValue)

/-- From src/unnamed/part_003 `positionToValue`: clamp the position into
[0, trackWidth], interpolate to [mn, mx] ("extend" mode), then step/clamp. -/
def positionToValue (position trackWidth mn mx step : ℚ) : ℚ :=
  let clampedPosition := clampPosition position 0 trackWidth
  let rawValue := interpolateExtend clampedPosition 0 trackWidth mn mx
  calculateSteppedValue rawValue step mn mx

/-- From src/packages/range-slider/src/range-slider.tsx lines 148-154: the
mounted left/right positions are two independent clamped interpolations of
initialMin/initialMax from [mn, mx] to [0, trackWidth]. -/
def mountRange (mn mx iMin iMax tw : ℚ) : ℚ × ℚ :=
  (interpolateClamped iMin mn mx 0 tw, interpolateClamped iMax mn mx 0 tw)

/-- A pan-gesture update sample on the dual-thumb slider: the argument is
the would-be new position (drag origin plus accumulated translation). -/
inductive PanOp where
  | panLeft (newPos : ℚ)
  | panRight (newPos : ℚ)
deriving DecidableEq

/-- From range-slider.tsx `leftPanGesture.onUpdate` / `rightPanGesture.onUpdate`:
the left thumb is clamped by min against rightPosition - thumbSize, the right
thumb by max against leftPosition + thumbSize.  The state is the pair
(leftPosition, rightPosition). -/
def panStep (thumbSize : ℚ) (s : ℚ × ℚ) : PanOp → ℚ × ℚ
  | .panLeft n => (min n (s.2 - thumbSize), s.2)
  | .panRight n => (s.1, max n (s.1 + thumbSize))

/-- Apply a sequence of pan updates in order. -/
def applyPans (thumbSize : ℚ) : ℚ × ℚ → List PanOp → ℚ × ℚ
  | s, [] => s
  | s, op :: ops => applyPans thumbSize (panStep thumbSize s op) ops

/-- From range-slider.tsx `tapGesture.onStart` (lines 227-248): the tap
target is event.x - thumbSize / 2 clamped into [0, trackWidth]; the thumb
with strictly smaller absolute distance to the target moves to it, the
right thumb moving when the comparison distToLeft < distToRight fails. -/
def tapStep (thumbSize trackWidth x : ℚ) (s : ℚ × ℚ) : ℚ × ℚ :=
  let tapX := x - thumbSize / 2
  let clampedPosition := clampPosition tapX 0 trackWidth
  let distToLeft := |clampedPosition - s.1|
  let distToRight := |clampedPosition - s.2|
  if distToLeft < distToRight then (clampedPosition, s.2) else (s.1, clampedPosition)

/-- The five-slot color set of src/unnamed/part_004 `THEME_COLORS`. -/
structure ColorSet where
  trackColor : String
  activeTrackColor : String
  thumbColor : String
  thumbBorderColor : String
  thumbFocusRingColor : String

/-- Theme name. -/
inductive Theme where
  | light
  | dark

/-- From src/unnamed/part_004: the theme color tables. -/
def THEME_COLORS : Theme → ColorSet
  | .light =>
    { trackColor := "#F5F5F5"
      activeTrackColor := "#171717"
      thumbColor := "#FFFFFF"
      thumbBorderColor := "#171717"
      thumbFocusRingColor := "#D0D0D0" }
  | .dark =>
    { trackColor := "#262626"
      activeTrackColor := "#E5E5E5"
      thumbColor := "#0A0A0A"
      thumbBorderColor := "#E5E5E5"
      thumbFocusRingColor := "#3F3F3F" }

/-- The per-instance color overrides (each optional, defaulting to absent). -/
structure CustomColors where
  trackColor : Option String := none
  activeTrackColor : Option String := none
  thumbColor : Option String := none
  thumbBorderColor : Option String := none
  thumbFocusRingColor : Option String := none

/-- From src/unnamed/part_003 `useThemeColors`: each slot resolves to the
explicit override when present (the ?? operator), else the theme table entry. -/
def useThemeColors (theme : Theme) (customColors : CustomColors) : ColorSet :=
  let themeColors := THEME_COLORS theme
  { trackColor := customColors.trackColor.getD themeColors.trackColor
    activeTrackColor := customColors.activeTrackColor.getD themeColors.activeTrackColor
    thumbColor := customColors.thumbColor.getD themeColors.thumbColor
    thumbBorderColor := customColors.thumbBorderColor.getD themeColors.thumbBorderColor
    thumbFocusRingColor := customColors.thumbFocusRingColor.getD themeColors.thumbFocusRingColor }

/-- Reference definition of `positionToValue`, written from the spec's words:
clamp position to [0, trackWidth]; linearly interpolate the clamped position
from [0, trackWidth] to [mn, mx] (a zero-width domain yields mn, per the
spec's edge-case sentence); if step > 0, quantize to round(value/step)*step
and clamp the result again to [mn, mx]; if step ≤ 0, return the interpolated
value unquantized. -/
def positionToValueSpec (position trackWidth mn mx step : ℚ) : ℚ :=
  let clamped := max 0 (min trackWidth position)
  let v := if trackWidth = 0 then mn else mn + clamped / trackWidth * (mx - mn)
  if step > 0 then max mn (min mx (((round (v / step) : ℤ) : ℚ) * step)) else v

/-- Reference tap assignment written from the claim's words (ties move the
LEFT thumb). -/
def tapSpecTieLeft (thumbSize trackWidth x : ℚ) (s : ℚ × ℚ) : ℚ × ℚ :=
  let target := clampPosition (x - thumbSize / 2) 0 trackWidth
  if |target - s.1| ≤ |target - s.2| then (target, s.2) else (s.1, target)

/-- Reference tap assignment with ties moving the RIGHT thumb (the amended
reading of the tap handler). -/
def tapSpecTieRight (thumbSize trackWidth x : ℚ) (s : ℚ × ℚ) : ℚ × ℚ :=
  let target := clampPosition (x - thumbSize / 2) 0 trackWidth
  if |target - s.1| < |target - s.2| then (target, s.2) else (s.1, target)

/-- The raw (unstepped) interpolated value produced inside `positionToValue`
always lies in [mn, mx] when mn ≤ mx, whatever the position and track width. -/
theorem rawValue_mem (p tw mn mx : ℚ) (h : mn ≤ mx) :
    mn ≤ interpolateExtend (clampPosition p 0 tw) 0 tw mn mx ∧
    interpolateExtend (clampPosition p 0 tw) 0 tw mn mx ≤ mx := by
  unfold interpolateExtend clampPosition
  simp only [sub_zero]
  by_cases htw : tw = 0
  · simp [htw, h]
  · simp only [htw, if_false]
    rcases lt_or_gt_of_ne htw with hneg | hpos
    · have hc : max 0 (min tw p) = 0 :=
        max_eq_left ((min_le_left tw p).trans hneg.le)
      rw [hc]
      simp [h]
    · have hc0 : 0 ≤ max 0 (min tw p) := le_max_left _ _
      have hctw : max 0 (min tw p) ≤ tw := max_le hpos.le (min_le_left _ _)
      have h1 : 0 ≤ max 0 (min tw p) / tw := div_nonneg hc0 hpos.le
      have h2 : max 0 (min tw p) / tw ≤ 1 := (div_le_one hpos).mpr hctw
      have h3 : 0 ≤ mx - mn := sub_nonneg.mpr h
      constructor
      · nlinarith [mul_nonneg h1 h3]
      · nlinarith [mul_le_of_le_one_left h3 h2]

/-- C1: for min ≤ max, `positionToValue` coincides with the reference
definition written from the spec: clamp the position to [0, trackWidth],
linearly interpolate to [min, max], and if step > 0 quantize to
round(value/step)*step clamped again to [min, max], else return the
interpolated value unquantized. -/
theorem positionToValue_eq_spec (p tw mn mx step : ℚ) (h : mn ≤ mx) :
    positionToValue p tw mn mx step = positionToValueSpec p tw mn mx step := by
  obtain ⟨h1, h2⟩ := rawValue_mem p tw mn mx h
  unfold interpolateExtend clampPosition at h1 h2
  unfold positionToValue positionToValueSpec calculateSteppedValue interpolateExtend clampPosition
  simp only [sub_zero] at h1 h2 ⊢
  by_cases hs : step > 0
  · simp only [hs, if_true]
  · simp only [hs, if_false]
    rw [min_eq_right h2, max_eq_right h1]

/-- Witness for C1 at position 140, trackWidth 280, min 0, max 100, step 10. -/
theorem positionToValue_eq_spec_witness :
    (0 : ℚ) ≤ 100 ∧
    positionToValue 140 280 0 100 10 = positionToValueSpec 140 280 0 100 10 :=
  ⟨by norm_num, positionToValue_eq_spec 140 280 0 100 10 (by norm_num)⟩

/-- C5: for min ≤ max and trackWidth > 0, the output of `positionToValue`
lies in [min, max] for every position (also outside [0, trackWidth]) and
every step. -/
theorem positionToValue_mem (p tw mn mx step : ℚ) (h : mn ≤ mx) (_htw : 0 < tw) :
    mn ≤ positionToValue p tw mn mx step ∧ positionToValue p tw mn mx step ≤ mx := by
  unfold positionToValue calculateSteppedValue
  exact ⟨le_max_left _ _, max_le h (min_le_left _ _)⟩

/-- Witness for C5 at position -50 (outside the track), trackWidth 280,
min 0, max 100, step 10. -/
theorem positionToValue_mem_witness :
    (0 : ℚ) ≤ 100 ∧ (0 : ℚ) < 280 ∧
    (0 ≤ positionToValue (-50) 280 0 100 10 ∧ positionToValue (-50) 280 0 100 10 ≤ 100) :=
  ⟨by norm_num, by norm_num, positionToValue_mem (-50) 280 0 100 10 (by norm_num) (by norm_num)⟩

/-- C4 counterexample: at position 5, trackWidth 0, min 1, max 10, step 2,
`positionToValue` returns 2 (the quantization of min = 1 to the step grid),
not min. -/
theorem positionToValue_zero_trackWidth_counterexample :
    positionToValue 5 0 1 10 2 = 2 ∧ (2 : ℚ) ≠ 1 := by
  norm_num [positionToValue, clampPosition, interpolateExtend, calculateSteppedValue, round_eq]

/-- C4 (amended): for trackWidth ≤ 0 no division by zero occurs (the
zero-width interpolation returns min directly) and `positionToValue`
returns `calculateSteppedValue min step min max`, i.e. min quantized to the
step grid and clamped; in particular min itself whenever step ≤ 0 or min is
a multiple of step. -/
theorem positionToValue_zero_trackWidth (p tw mn mx step : ℚ) (htw : tw ≤ 0) :
    positionToValue p tw mn mx step = calculateSteppedValue mn step mn mx := by
  have hc : clampPosition p 0 tw = 0 := by
    unfold clampPosition
    exact max_eq_left ((min_le_left tw p).trans htw)
  unfold positionToValue
  rw [hc]
  have hraw : interpolateExtend 0 0 tw mn mx = mn := by
    unfold interpolateExtend
    by_cases h0 : tw - 0 = 0
    · rw [if_pos h0]
    · rw [if_neg h0]
      simp
  show calculateSteppedValue (interpolateExtend 0 0 tw mn mx) step mn mx =
    calculateSteppedValue mn step mn mx
  rw [hraw]

/-- Witness for C4 (amended) at position 5, trackWidth 0, min 1, max 10, step 2. -/
theorem positionToValue_zero_trackWidth_witness :
    (0 : ℚ) ≤ 0 ∧ positionToValue 5 0 1 10 2 = calculateSteppedValue 1 2 1 10 :=
  ⟨le_refl 0, positionToValue_zero_trackWidth 5 0 1 10 2 (le_refl 0)⟩

/-- C8: with trackWidth > 0, min ≤ max and step = 0, `positionToValue` is
monotonically non-decreasing in the position over [0, trackWidth]. -/
theorem positionToValue_monotone (tw mn mx p1 p2 : ℚ) (htw : 0 < tw) (h : mn ≤ mx)
    (hp1 : 0 ≤ p1) (hp12 : p1 ≤ p2) (hp2 : p2 ≤ tw) :
    positionToValue p1 tw mn mx 0 ≤ positionToValue p2 tw mn mx 0 := by
  have hc1 : clampPosition p1 0 tw = p1 := by
    unfold clampPosition
    rw [min_eq_right (hp12.trans hp2), max_eq_right hp1]
  have hc2 : clampPosition p2 0 tw = p2 := by
    unfold clampPosition
    rw [min_eq_right hp2, max_eq_right (hp1.trans hp12)]
  unfold positionToValue
  rw [hc1, hc2]
  unfold calculateSteppedValue interpolateExtend
  simp only [sub_zero, htw.ne', if_false, gt_iff_lt, lt_irrefl]
  have key : mn + p1 / tw * (mx - mn) ≤ mn + p2 / tw * (mx - mn) := by
    have hprod : p2 / tw * (mx - mn) - p1 / tw * (mx - mn) = (p2 - p1) / tw * (mx - mn) := by
      ring
    have hn : 0 ≤ (p2 - p1) / tw * (mx - mn) :=
      mul_nonneg (div_nonneg (by linarith) htw.le) (by linarith)
    linarith
  exact max_le_max le_rfl (min_le_min le_rfl key)

/-- Witness for C8 at trackWidth 280, min 0, max 100, positions 70 and 210. -/
theorem positionToValue_monotone_witness :
    (0 : ℚ) < 280 ∧ (0 : ℚ) ≤ 100 ∧ (0 : ℚ) ≤ 70 ∧ (70 : ℚ) ≤ 210 ∧ (210 : ℚ) ≤ 280 ∧
    positionToValue 70 280 0 100 0 ≤ positionToValue 210 280 0 100 0 :=
  ⟨by norm_num, by norm_num, by norm_num, by norm_num, by norm_num,
    positionToValue_monotone 280 0 100 70 210 (by norm_num) (by norm_num)
      (by norm_num) (by norm_num) (by norm_num)⟩

/-- C6: for min ≤ max, trackWidth > 0, step > 0 and a value v in [min, max]
that is an exact integer multiple of step, mapping v to a position via the
mount-time clamped interpolation and back through `positionToValue` returns
exactly v. -/
theorem step_roundtrip (mn mx tw step v : ℚ) (h : mn ≤ mx) (htw : 0 < tw)
    (hs : 0 < step) (hv1 : mn ≤ v) (hv2 : v ≤ mx) (hq : ∃ k : ℤ, v = k * step) :
    positionToValue (interpolateClamped v mn mx 0 tw) tw mn mx step = v := by
  obtain ⟨k, hk⟩ := hq
  have hstep : calculateSteppedValue v step mn mx = v := by
    unfold calculateSteppedValue
    have hdiv : v / step = (k : ℚ) := by
      rw [hk]
      field_simp
    rw [hdiv]
    simp only [round_intCast, gt_iff_lt, hs, if_true]
    rw [← hk, min_eq_right hv2, max_eq_right hv1]
  rcases eq_or_lt_of_le h with heq | hlt
  · -- degenerate range: min = max, so v = min and the forward map yields 0
    subst heq
    have hveq : v = mn := le_antisymm hv2 hv1
    subst hveq
    have hpos : interpolateClamped v v v 0 tw = 0 := by
      unfold interpolateClamped
      simp
    rw [hpos]
    have hc : clampPosition 0 0 tw = 0 := by
      unfold clampPosition
      rw [min_eq_right htw.le, max_self]
    unfold positionToValue
    rw [hc]
    have hraw : interpolateExtend 0 0 tw v v = v := by
      unfold interpolateExtend
      simp [htw.ne']
    show calculateSteppedValue (interpolateExtend 0 0 tw v v) step v v =  v
    rw [hraw, hstep]
  · have hne : mx - mn ≠ 0 := sub_ne_zero.mpr hlt.ne'
    have hfrac0 : 0 ≤ (v - mn) / (mx - mn) := div_nonneg (by linarith) (by linarith)
    have hfrac1 : (v - mn) / (mx - mn) ≤ 1 := (div_le_one (by linarith)).mpr (by linarith)
    have hp0 : 0 ≤ (v - mn) / (mx - mn) * tw := mul_nonneg hfrac0 htw.le
    have hptw : (v - mn) / (mx - mn) * tw ≤ tw := by nlinarith
    have hpos : interpolateClamped v mn mx 0 tw = (v - mn) / (mx - mn) * tw := by
      unfold interpolateClamped
      rw [if_neg hne, if_pos htw.le]
      simp only [zero_add, sub_zero]
      rw [min_eq_right hptw, max_eq_right hp0]
    rw [hpos]
    have hc : clampPosition ((v - mn) / (mx - mn) * tw) 0 tw = (v - mn) / (mx - mn) * tw := by
      unfold clampPosition
      rw [min_eq_right hptw, max_eq_right hp0]
    unfold positionToValue
    rw [hc]
    have hraw : interpolateExtend ((v - mn) / (mx - mn) * tw) 0 tw mn mx = v := by
      unfold interpolateExtend
      rw [if_neg (by simpa using htw.ne')]
      simp only [sub_zero, zero_sub, neg_neg]
      field_simp
      ring
    show calculateSteppedValue (interpolateExtend ((v - mn) / (mx - mn) * tw) 0 tw mn mx)
      step mn mx = v
    rw [hraw, hstep]

/-- Witness for C6 at min 0, max 100, trackWidth 280, step 10, v = 50 (= 5·10). -/
theorem step_roundtrip_witness :
    (0 : ℚ) ≤ 100 ∧ (0 : ℚ) < 280 ∧ (0 : ℚ) < 10 ∧ (0 : ℚ) ≤ 50 ∧ (50 : ℚ) ≤ 100 ∧
    (∃ k : ℤ, (50 : ℚ) = k * 10) ∧
    positionToValue (interpolateClamped 50 0 100 0 280) 280 0 100 10 = 50 :=
  ⟨by norm_num, by norm_num, by norm_num, by norm_num, by norm_num, ⟨5, by norm_num⟩,
    step_roundtrip 0 100 280 10 50 (by norm_num) (by norm_num) (by norm_num)
      (by norm_num) (by norm_num) ⟨5, by norm_num⟩⟩

/-- A single pan update establishes the non-crossing gap regardless of the
previous state: the left update clamps below rightPosition - thumbSize, the
right update clamps above leftPosition + thumbSize. -/
theorem panStep_gap (t : ℚ) (s : ℚ × ℚ) (op : PanOp) :
    (panStep t s op).1 + t ≤ (panStep t s op).2 := by
  cases op with
  | panLeft n =>
    simp only [panStep]
    have := min_le_right n (s.2 - t)
    linarith
  | panRight n =>
    simp only [panStep]
    have := le_max_right n (s.1 + t)
    linarith

/-- Any pan sequence preserves the non-crossing gap. -/
theorem applyPans_gap (t : ℚ) (ops : List PanOp) :
    ∀ s : ℚ × ℚ, s.1 + t ≤ s.2 → (applyPans t s ops).1 + t ≤ (applyPans t s ops).2 := by
  induction ops with
  | nil => exact fun s h => h
  | cons op ops ih => exact fun s _ => ih (panStep t s op) (panStep_gap t s op)

/-- C7: from any starting state, after each update step of any sequence of
left/right pan updates, rightPosition - leftPosition ≥ thumbSize holds. -/
theorem pan_sequence_gap (t : ℚ) (s : ℚ × ℚ) (ops : List PanOp) (hne : ops ≠ []) :
    (applyPans t s ops).1 + t ≤ (applyPans t s ops).2 := by
  cases ops with
  | nil => exact absurd rfl hne
  | cons op ops => exact applyPans_gap t ops (panStep t s op) (panStep_gap t s op)

/-- Witness for C7: one right-pan update from the degenerate state (0, 0)
with thumbSize 20. -/
theorem pan_sequence_gap_witness :
    ([PanOp.panRight 5] : List PanOp) ≠ [] ∧
    (applyPans 20 ((0 : ℚ), (0 : ℚ)) [PanOp.panRight 5]).1 + 20 ≤
      (applyPans 20 ((0 : ℚ), (0 : ℚ)) [PanOp.panRight 5]).2 :=
  ⟨by simp, pan_sequence_gap 20 (0, 0) [PanOp.panRight 5] (by simp)⟩

/-- C2 counterexample: mounting with min 0, max 280, initialMin 0,
initialMax 30, trackWidth 280 yields positions (0, 30), which satisfies the
invariant for thumbSize 20; a tap at event.x = 24 (target 14) moves the
left thumb, producing (14, 30), and 14 + 20 ≤ 30 fails. -/
theorem range_invariant_tap_counterexample :
    mountRange 0 280 0 30 280 = (0, 30) ∧
    tapStep 20 280 24 (0, 30) = (14, 30) ∧
    ¬ ((14 : ℚ) + 20 ≤ 30) := by
  refine ⟨?_, ?_, by norm_num⟩
  · norm_num [mountRange, interpolateClamped]
  · norm_num [tapStep, clampPosition]

/-- C2 (amended): leftPosition + thumbSize ≤ rightPosition is preserved by
every sequence of left/right pan updates from any state satisfying it; it is
not enforced by mount or by tap updates. -/
theorem range_invariant_pan_reachable (t : ℚ) (s : ℚ × ℚ) (ops : List PanOp)
    (h : s.1 + t ≤ s.2) :
    (applyPans t s ops).1 + t ≤ (applyPans t s ops).2 :=
  applyPans_gap t ops s h

/-- Witness for C2 (amended): one left-pan update from state (0, 30) with
thumbSize 20. -/
theorem range_invariant_pan_reachable_witness :
    ((0 : ℚ), (30 : ℚ)).1 + 20 ≤ ((0 : ℚ), (30 : ℚ)).2 ∧
    (applyPans 20 ((0 : ℚ), (30 : ℚ)) [PanOp.panLeft 100]).1 + 20 ≤
      (applyPans 20 ((0 : ℚ), (30 : ℚ)) [PanOp.panLeft 100]).2 :=
  ⟨by norm_num, range_invariant_pan_reachable 20 (0, 30) [PanOp.panLeft 100] (by norm_num)⟩

/-- C3 counterexample: with thumbSize 20, trackWidth 280, state (10, 30)
and event.x = 30 the target is 20, exactly equidistant from both thumbs
(distance 10); the handler moves the RIGHT thumb, yielding (10, 20), while
the claim's tie-favors-left reading yields (20, 30). -/
theorem tap_tie_counterexample :
    tapStep 20 280 30 (10, 30) = (10, 20) ∧
    tapSpecTieLeft 20 280 30 (10, 30) = (20, 30) ∧
    tapStep 20 280 30 (10, 30) ≠ tapSpecTieLeft 20 280 30 (10, 30) := by
  refine ⟨?_, ?_, ?_⟩ <;> norm_num [tapStep, tapSpecTieLeft, clampPosition, Prod.ext_iff]

/-- C3 (amended): the tap target is event.x - thumbSize/2 clamped to
[0, trackWidth]; it is assigned to whichever thumb has the strictly smaller
absolute distance to the target, and on an exact tie the RIGHT thumb is the
one moved. -/
theorem tap_assigns_nearer_thumb (thumbSize trackWidth x : ℚ) (s : ℚ × ℚ) :
    tapStep thumbSize trackWidth x s = tapSpecTieRight thumbSize trackWidth x s := rfl

/-- C9: theme resolution resolves the five color slots independently:
with no overrides the dark theme table is returned exactly, and with only a
thumbColor override the thumbColor slot is replaced while the other four
slots keep their dark-table values. -/
theorem useThemeColors_dark_resolution :
    useThemeColors Theme.dark {} = THEME_COLORS Theme.dark ∧
    ∀ c : String,
      (useThemeColors Theme.dark { thumbColor := some c }).thumbColor = c ∧
      (useThemeColors Theme.dark { thumbColor := some c }).trackColor =
        (THEME_COLORS Theme.dark).trackColor ∧
      (useThemeColors Theme.dark { thumbColor := some c }).activeTrackColor =
        (THEME_COLORS Theme.dark).activeTrackColor ∧
      (useThemeColors Theme.dark { thumbColor := some c }).thumbBorderColor =
        (THEME_COLORS Theme.dark).thumbBorderColor ∧
      (useThemeColors Theme.dark { thumbColor := some c }).thumbFocusRingColor =
        (THEME_COLORS Theme.dark).thumbFocusRingColor :=
  ⟨rfl, fun _ => ⟨rfl, rfl, rfl, rfl, rfl⟩⟩

/-- C10: the mounted left and right positions are two independent clamped
interpolations with no non-crossing adjustment: equal initial values always
yield equal positions, and concretely min 0, max 100, initialMin =
initialMax = 50, trackWidth 280 mounts at (140, 140), violating the
non-crossing gap for thumbSize 20. -/
theorem mount_independent_interpolations :
    (∀ mn mx v tw : ℚ, (mountRange mn mx v v tw).1 = (mountRange mn mx v v tw).2) ∧
    mountRange 0 100 50 50 280 = (140, 140) ∧ ¬ ((140 : ℚ) + 20 ≤ 140) := by
  refine ⟨fun mn mx v tw => rfl, ?_, by norm_num⟩
  norm_num [mountRange, interpolateClamped]

end RNSlider
